import Mathlib

/-!
Shallow embedding of `src/ambassador/src/derive.rs` (the `#[derive(Delegate)]`
code generator of the ambassador crate) and verification of the claims of the
specification against it.

Modelling conventions:
* `syn::Ident` is a `String`; `syn::Type` is an opaque `String`; `syn::Path`
  is its list of segments (`List String`).
* Rust `panic!`/`expect`/`unwrap` failures become `Except.error` carrying the
  panic message; functions that can panic return `Except String _`.
* `quote!` output is modelled structurally: an `ImplBlock` records exactly the
  interpolated pieces of the quoted implementation block (header trait, the
  merged where-clause, and the arguments handed to the body-template macro).
-/

namespace Ambassador

abbrev Ident := String
abbrev Ty := String
abbrev Path := List String

/-- `syn::Member`: a named field or a positional (tuple) index. -/
inductive Member where
  | Named (ident : Ident)
  | Unnamed (index : Nat)
deriving DecidableEq, Repr

/-- A `syn::WherePredicate` as the generator handles it: predicates already
present on the declaration or given in `where = "..."` arguments are kept
un-interpreted (`raw`); the two predicate shapes the generator synthesizes
itself (`parse_quote!(#ty : #trait_path_full)` and
`parse_quote!(#arg : #match_name<#first_type>)`) are kept structurally. -/
inductive WherePred where
  | raw (src : String)
  | traitImpl (ty : Ty) (traitPath : Path)
  | matchImpl (ty : Ty) (matchMacroIdent : Ident) (canonical : Ty)
deriving DecidableEq, Repr

/-- `syn::Generics`: the declared type parameters and the predicates of an
optional declared where-clause (an absent clause is the empty list, exactly
how `derive.rs` flattens it with `where_clause.into_iter().flat_map`). -/
structure Generics where
  params : List Ident
  wherePredicates : List WherePred
deriving DecidableEq, Repr

/-- A field of a struct or of an enum variant: optional name and its type. -/
structure Field where
  ident : Option Ident
  ty : Ty
deriving DecidableEq, Repr

/-- An enum variant: its name and its payload fields. -/
structure Variant where
  ident : Ident
  fields : List Field
deriving DecidableEq, Repr

/-- `syn::Data`: the shape of the declaration (`dataUnion` stands for every
shape that is neither an enum nor a struct). -/
inductive Data where
  | dataEnum (variants : List Variant)
  | dataStruct (fields : List Field)
  | dataUnion
deriving DecidableEq, Repr

/-- `syn::Lit`, restricted to what `from_meta` distinguishes: string literals
versus everything else. -/
inductive Lit where
  | str (s : String)
  | other
deriving DecidableEq, Repr

mutual
/-- `syn::Meta`. -/
inductive Meta where
  | path (p : Path)
  | list (nested : List NestedMeta)
  | nameValue (name : Path) (lit : Lit)

/-- `syn::NestedMeta`. -/
inductive NestedMeta where
  | meta (m : Meta)
  | lit (l : Lit)
end

/-- An attribute attached to the declaration: its path and its parsed meta
(`attr.parse_meta()` is the external syn parser; the embedding starts from
its result). -/
structure Attribute where
  path : Path
  meta : Meta

/-- `syn::DeriveInput`: the annotated type declaration. -/
structure DeriveInput where
  ident : Ident
  generics : Generics
  attrs : List Attribute
  data : Data

/-- `DelegateImplementer` of derive.rs. -/
inductive DelegateImplementer where
  | Enum (variant_idents : List Ident) (first_type : Ty) (other_types : List Ty)
      (generics : Generics)
  | SingleFieldStruct (field_ident : Member) (field_type : Ty) (generics : Generics)
  | MultiFieldStruct (fields : List (Member × Ty)) (generics : Generics)
deriving DecidableEq, Repr

/-- Sequencing of a fallible computation over a list: the embedding of a Rust
iterator whose closure can panic (the first failure aborts the whole pass). -/
def mapExcept (f : α → Except String β) : List α → Except String (List β)
  | [] => .ok []
  | a :: as =>
    match f a with
    | .error e => .error e
    | .ok b =>
      match mapExcept f as with
      | .error e => .error e
      | .ok bs => .ok (b :: bs)

/-- The per-variant work of the enum arm of `From<DeriveInput>`: require
exactly one payload field and keep `(variant_ident, payload_type)`. -/
def classifyVariant (n : Variant) : Except String (Ident × Ty) :=
  match n.fields with
  | [] => .error ("enum variant " ++ n.ident ++ " has no fields")
  | [f] => .ok (n.ident, f.ty)
  | _ :: _ :: _ => .error ("enum variant " ++ n.ident ++ " has multiple fields")

/-- `impl From<DeriveInput> for DelegateImplementer` of derive.rs.  Note that
the source computes `first_type` with `variant_types.pop()`, and `Vec::pop`
removes the LAST element, so the popped type is the last variant's payload
type and `other_types` keeps the types of all variants but the last. -/
def classify (input : DeriveInput) : Except String DelegateImplementer :=
  let generics := input.generics
  match input.data with
  | .dataEnum enum_variants =>
    match mapExcept classifyVariant enum_variants with
    | .error e => .error e
    | .ok pairs =>
      let variant_idents := pairs.map Prod.fst
      let variant_types := pairs.map Prod.snd
      match variant_types.getLast? with
      | none => .error "enum has no variants"
      | some first_type =>
        .ok (.Enum variant_idents first_type variant_types.dropLast generics)
  | .dataStruct struct_fields =>
    match struct_fields with
    | [] => .error "struct has no fields"
    | [field] =>
      let field_ident :=
        match field.ident with
        | some id => Member.Named id
        | none => Member.Unnamed 0
      .ok (.SingleFieldStruct field_ident field.ty generics)
    | _ :: _ :: _ =>
      let fields := struct_fields.enum.map (fun p =>
        match p.2.ident with
        | some id => (Member.Named id, p.2.ty)
        | none => (Member.Unnamed p.1, p.2.ty))
      .ok (.MultiFieldStruct fields generics)
  | .dataUnion =>
    .error "ambassador currently only supports #[derive(Delegate)] for: single-field enums and (tuple) structs"

/-- `DelegateArgs` of derive.rs: the parsed delegation directive. -/
structure DelegateArgs where
  trait_path_full : Path
  target : Option Member
  where_clauses : List (List WherePred)
deriving DecidableEq, Repr

/-- A character usable in a non-leading position of a Rust identifier. -/
def isIdentChar (c : Char) : Bool := c.isAlphanum || c = '_'

/-- A valid Rust identifier (model of what `syn` accepts for an `Ident`). -/
def isValidIdentString (s : String) : Bool :=
  match s.data with
  | [] => false
  | c :: cs => (c.isAlpha || c = '_') && cs.all isIdentChar

/-- Model of `lit.parse::<syn::Member>()` (the external syn parser): an
all-digit string is a positional index, a valid identifier is a named member,
anything else fails. -/
def parseMember (s : String) : Option Member :=
  match s.toNat? with
  | some n => some (.Unnamed n)
  | none => if isValidIdentString s then some (.Named s) else none

/-- Model of `lit.parse_with(Punctuated::<WherePredicate, Comma>::parse_terminated)`
(the external syn parser): split on commas into un-interpreted predicates; an
empty chunk (stray comma) fails, the empty string is the empty list. -/
def parsePredicates (s : String) : Option (List WherePred) :=
  if s = "" then some []
  else
    let parts := s.splitOn ","
    if parts.all (fun p => p != "") then some (parts.map WherePred.raw) else none

/-- The argument loop of `DelegateArgs::from_meta` over the arguments after the
first: name/value pairs named `target` and `where` are handled, any OTHER
name/value pair falls through both `if`s and is skipped, and any argument that
is not a name/value pair panics. -/
def parseTail :
    List Meta → Option Member → List (List WherePred) →
      Except String (Option Member × List (List WherePred))
  | [], target, where_clauses => .ok (target, where_clauses)
  | .nameValue name (.str s) :: rest, target, where_clauses =>
      if name = ["target"] then
        match parseMember s with
        | none =>
          .error "Invalid syntax for delegate attribute; Expected ident as value for \"target\""
        | some target_val =>
          if target.isSome then
            .error "\"target\" value for delegate attribute can only be specified once"
          else
            parseTail rest (some target_val) where_clauses
      else if name = ["where"] then
        match parsePredicates s with
        | none =>
          .error "Invalid syntax for delegate attribute; Expected where clause syntax as value for \"where\""
        | some where_clause_val => parseTail rest target (where_clauses ++ [where_clause_val])
      else
        parseTail rest target where_clauses
  | .nameValue name .other :: rest, target, where_clauses =>
      if name = ["target"] then
        .error "Invalid syntax for delegate attribute; delegate attribute values have to be strings"
      else if name = ["where"] then
        .error "Invalid syntax for delegate attribute; delegate attribute values have to be strings"
      else
        parseTail rest target where_clauses
  | .path _ :: _, _, _ => .error "Invalid syntax for delegate attribute"
  | .list _ :: _, _, _ => .error "Invalid syntax for delegate attribute"

/-- `DelegateArgs::from_meta` of derive.rs. -/
def from_meta (meta : Meta) : Except String DelegateArgs :=
  match meta with
  | .list meta_list =>
    match mapExcept (fun n =>
        match n with
        | .meta m => .ok m
        | .lit _ => .error "Invalid syntax for delegate attribute") meta_list with
    | .error e => .error e
    | .ok nested_meta_items =>
      match nested_meta_items with
      | [] => .error "index out of bounds: the len is 0 but the index is 0"
      | first :: rest =>
        match first with
        | .path trait_path_full =>
          match parseTail rest none [] with
          | .error e => .error e
          | .ok (target, where_clauses) => .ok ⟨trait_path_full, target, where_clauses⟩
        | _ =>
          .error "Invalid syntax for delegate attribute; First value has to be the Trait name"
  | _ => .error "Invalid syntax for delegate attribute"

/-- `Display for PrettyTarget` of derive.rs: the human-readable form of a
field selector. -/
def prettyTarget : Member → String
  | .Named ident => ident
  | .Unnamed index => toString index

/-- `DelegateArgs::get_field` of derive.rs. -/
def get_field (args : DelegateArgs) (field_idents : List (Member × Ty)) :
    Except String (Member × Ty) :=
  match args.target with
  | none =>
    .error "\"target\" value on #[delegate] attribute has to be specified for structs with multiple fields"
  | some target =>
    match field_idents.find? (fun n => decide (n.1 = target)) with
    | none =>
      .error ("Unknown field \"" ++ prettyTarget target
        ++ "\" specified as \"target\" value in #[delegate] attribute")
    | some field => .ok field

/-- The generics of an implementer (the match at the head of
`DelegateArgs::generics_for_impl`). -/
def genericsOf : DelegateImplementer → Generics
  | .Enum _ _ _ generics => generics
  | .SingleFieldStruct _ _ generics => generics
  | .MultiFieldStruct _ generics => generics

/-- `DelegateArgs::generics_for_impl` of derive.rs: `split_for_impl` keeps the
declared parameters, and the merged where-clause chains the declaration's own
predicates, then the synthesized `#ty : #trait_path_full` bound, then the
flattened explicit `where = "..."` clauses, in that order. -/
def generics_for_impl (args : DelegateArgs) (implementer : DelegateImplementer)
    (ty : Ty) : List Ident × List WherePred :=
  let generics := genericsOf implementer
  (generics.params,
    generics.wherePredicates
      ++ [WherePred.traitImpl ty args.trait_path_full]
      ++ args.where_clauses.flatten)

/-- Modelled from the spec: `macro_name` lives in the register module, which is
not under src/ (derive.rs only imports it).  Per the spec the Body Template
Registry is keyed by the interface identifier, so the derived template-macro
name is modelled as an injective tagging of the trait identifier. -/
def macro_name (trait_ident : Ident) : Ident := "ambassador_impl_" ++ trait_ident

/-- Modelled from the spec: `match_name` lives in the register module, which is
not under src/ (derive.rs only imports it).  The spec's structural-matching
relation is named from the interface identifier; modelled as an injective
tagging of the trait identifier. -/
def match_name (trait_ident : Ident) : Ident := "ambassador_match_" ++ trait_ident

/-- The structured content of one emitted implementation block: exactly the
pieces `delegate_macro` interpolates into its `quote!` templates.  The enum
template writes `impl ... #trait_path_full for ...` and invokes
`body_enum(#first_type, (#other_types),* , (#implementer_ident::#variant_idents),*)`;
both struct templates write `impl ... #trait_ident for ...` (the LAST path
segment only) and invoke `body_struct(#field_type, #field_ident)`. -/
inductive ImplBlock where
  | enumBlock (mod_name : Ident) (macroIdent : Ident) (header_trait : Path)
      (implementer_ident : Ident) (genericsParams : List Ident)
      (whereClause : List WherePred)
      (body_first_type : Ty) (body_other_types : List Ty)
      (body_variant_idents : List Ident)
  | structBlock (macroIdent : Ident) (header_trait : Ident)
      (implementer_ident : Ident) (genericsParams : List Ident)
      (whereClause : List WherePred)
      (body_field_type : Ty) (body_field_ident : Member)
deriving DecidableEq, Repr

/-- The merged where-clause carried by an emitted block. -/
def whereClauseOf : ImplBlock → List WherePred
  | .enumBlock _ _ _ _ _ whereClause _ _ _ => whereClause
  | .structBlock _ _ _ _ whereClause _ _ => whereClause

/-- The trait named in the impl header of an emitted block (as a path; the
struct templates interpolate a single identifier). -/
def headerTraitOf : ImplBlock → Path
  | .enumBlock _ _ header_trait _ _ _ _ _ _ => header_trait
  | .structBlock _ header_trait _ _ _ _ _ => [header_trait]

/-- The `(first_type, other_types, variant_idents)` triple handed to the
`body_enum` template, when the block is an enum block. -/
def enumBodyOf : ImplBlock → Option (Ty × List Ty × List Ident)
  | .enumBlock _ _ _ _ _ _ body_first_type body_other_types body_variant_idents =>
    some (body_first_type, body_other_types, body_variant_idents)
  | .structBlock _ _ _ _ _ _ _ => none

/-- The `(field_ident, field_type)` pair handed to the `body_struct` template,
when the block is a struct block. -/
def structFieldOf : ImplBlock → Option (Member × Ty)
  | .enumBlock _ _ _ _ _ _ _ _ _ => none
  | .structBlock _ _ _ _ _ body_field_type body_field_ident =>
    some (body_field_ident, body_field_type)

/-- The list of variant identifiers the emitted dispatch matches over (empty
for struct blocks, whose body is a single forwarding call). -/
def dispatchIdentsOf : ImplBlock → List Ident
  | .enumBlock _ _ _ _ _ _ _ _ body_variant_idents => body_variant_idents
  | .structBlock _ _ _ _ _ _ _ => []

/-- The body of the per-directive loop of `delegate_macro`: resolve the trait
identifier (`segments.last().unwrap()`), dispatch on the implementer shape,
and build one implementation block. -/
def emitOne (implementer_ident : Ident) (implementer : DelegateImplementer)
    (args : DelegateArgs) : Except String ImplBlock :=
  match args.trait_path_full.getLast? with
  | none => .error "called Option::unwrap on a None value"
  | some trait_ident =>
    let macroIdent := macro_name trait_ident
    match implementer with
    | .Enum variant_idents first_type other_types _ =>
      if args.target.isSome then
        .error "\"target\" value on #[delegate] attribute can not be specified for enums"
      else
        let (params, where_clause) := generics_for_impl args implementer first_type
        let where_clause := where_clause
          ++ other_types.map (fun arg =>
              WherePred.matchImpl arg (match_name trait_ident) first_type)
        .ok (.enumBlock ("ambassador_module_" ++ trait_ident) macroIdent
          args.trait_path_full implementer_ident params where_clause
          first_type other_types variant_idents)
    | .SingleFieldStruct field_ident field_type _ =>
      if args.target.isSome then
        .error "\"target\" value on #[delegate] attribute can not be specified for structs with a single field"
      else
        let (params, where_clause) := generics_for_impl args implementer field_type
        .ok (.structBlock macroIdent trait_ident implementer_ident params
          where_clause field_type field_ident)
    | .MultiFieldStruct fields _ =>
      match get_field args fields with
      | .error e => .error e
      | .ok field =>
        let (params, where_clause) := generics_for_impl args implementer field.2
        .ok (.structBlock macroIdent trait_ident implementer_ident params
          where_clause field.2 field.1)

/-- The delegate attributes of the input
(`input.attrs.iter().filter(|n| n.path.is_ident("delegate"))`). -/
def delegate_attributes (input : DeriveInput) : List Attribute :=
  input.attrs.filter (fun n => decide (n.path = ["delegate"]))

/-- `delegate_macro` of derive.rs: classify the declaration once, require at
least one `#[delegate]` attribute, then process each attribute independently
into one implementation block. -/
def delegate_macro (input : DeriveInput) : Except String (List ImplBlock) :=
  match classify input with
  | .error e => .error e
  | .ok implementer =>
    let implementer_ident := input.ident
    if (delegate_attributes input).isEmpty then
      .error "No #[delegate] attribute specified. If you want to delegate an implementation of trait SomeTrait add the attribute: #[delegate(SomeTrait)]"
    else
      mapExcept (fun delegate_attr =>
        match from_meta delegate_attr.meta with
        | .error e => .error e
        | .ok args => emitOne implementer_ident implementer args)
        (delegate_attributes input)

/-- The payload type of a variant (meaningful when the variant has exactly one
field, which classification enforces). -/
def payloadOfVariant (v : Variant) : Ty := (v.fields.map Field.ty).headI

/-! ### Helper lemmas about `mapExcept` -/

theorem mapExcept_ok_cons_iff {α β : Type} {f : α → Except String β} {a : α}
    {as : List α} {bs : List β} :
    mapExcept f (a :: as) = .ok bs ↔
      ∃ b bs', f a = .ok b ∧ mapExcept f as = .ok bs' ∧ bs = b :: bs' := by
  constructor
  · intro h
    simp only [mapExcept] at h
    cases hfa : f a with
    | error e => rw [hfa] at h; simp at h
    | ok b =>
      rw [hfa] at h
      cases hrest : mapExcept f as with
      | error e => rw [hrest] at h; simp at h
      | ok bs' =>
        rw [hrest] at h
        simp only [Except.ok.injEq] at h
        exact ⟨b, bs', rfl, rfl, h.symm⟩
  · rintro ⟨b, bs', hfa, hrest, rfl⟩
    simp [mapExcept, hfa, hrest]

theorem mapExcept_ok_eq_map {α β : Type} {f : α → Except String β} {g : α → β}
    (hg : ∀ a b, f a = .ok b → b = g a) :
    ∀ {l : List α} {bs : List β}, mapExcept f l = .ok bs → bs = l.map g := by
  intro l
  induction l with
  | nil =>
    intro bs h
    simp only [mapExcept, Except.ok.injEq] at h
    simp [← h]
  | cons a as ih =>
    intro bs h
    rcases mapExcept_ok_cons_iff.1 h with ⟨b, bs', hfa, hrest, rfl⟩
    rw [List.map_cons, hg a b hfa, ih hrest]

theorem mapExcept_ok_forall_ok {α β : Type} {f : α → Except String β} :
    ∀ {l : List α} {bs : List β}, mapExcept f l = .ok bs →
      ∀ a ∈ l, ∃ b, f a = .ok b := by
  intro l
  induction l with
  | nil => intro bs _ a ha; cases ha
  | cons x as ih =>
    intro bs h a ha
    rcases mapExcept_ok_cons_iff.1 h with ⟨b, bs', hfa, hrest, rfl⟩
    rcases List.mem_cons.1 ha with rfl | ha'
    · exact ⟨b, hfa⟩
    · exact ih hrest a ha'

theorem mapExcept_of_forall_eq {α β : Type} {f : α → Except String β} {g : α → β} :
    ∀ {l : List α}, (∀ a ∈ l, f a = .ok (g a)) → mapExcept f l = .ok (l.map g) := by
  intro l
  induction l with
  | nil => intro _; rfl
  | cons a as ih =>
    intro h
    exact mapExcept_ok_cons_iff.2
      ⟨g a, as.map g, h a (List.mem_cons_self a as), ih (fun x hx => h x (List.mem_cons_of_mem a hx)), rfl⟩

theorem mapExcept_ok_length {α β : Type} {f : α → Except String β} :
    ∀ {l : List α} {bs : List β}, mapExcept f l = .ok bs → bs.length = l.length := by
  intro l
  induction l with
  | nil =>
    intro bs h
    simp only [mapExcept, Except.ok.injEq] at h
    simp [← h]
  | cons a as ih =>
    intro bs h
    rcases mapExcept_ok_cons_iff.1 h with ⟨b, bs', hfa, hrest, rfl⟩
    simp [ih hrest]

theorem mapExcept_ok_get {α β : Type} {f : α → Except String β} :
    ∀ {l : List α} {bs : List β}, mapExcept f l = .ok bs →
      ∀ (i : Nat) (hi : i < l.length) (hb : i < bs.length),
        f (l.get ⟨i, hi⟩) = .ok (bs.get ⟨i, hb⟩) := by
  intro l
  induction l with
  | nil => intro bs _ i hi; cases hi
  | cons a as ih =>
    intro bs h i hi hb
    rcases mapExcept_ok_cons_iff.1 h with ⟨b, bs', hfa, hrest, rfl⟩
    cases i with
    | zero => simpa using hfa
    | succ j =>
      have hj : j < as.length := Nat.lt_of_succ_lt_succ hi
      have hj' : j < bs'.length := Nat.lt_of_succ_lt_succ hb
      simpa using ih hrest j hj hj'

/-! ### Helper lemmas about `classifyVariant` and `classify` -/

theorem classifyVariant_ok_iff (v : Variant) :
    (∃ p, classifyVariant v = .ok p) ↔ v.fields.length = 1 := by
  cases hf : v.fields with
  | nil => simp [classifyVariant, hf]
  | cons f rest =>
    cases rest with
    | nil => simp [classifyVariant, hf]
    | cons g rest' => simp [classifyVariant, hf]

theorem classifyVariant_ok_eq {v : Variant} {p : Ident × Ty}
    (h : classifyVariant v = .ok p) : p = (v.ident, payloadOfVariant v) := by
  cases hf : v.fields with
  | nil => rw [classifyVariant, hf] at h; simp at h
  | cons f rest =>
    cases rest with
    | nil =>
      rw [classifyVariant, hf] at h
      simp only [Except.ok.injEq] at h
      rw [← h, payloadOfVariant, hf]
      rfl
    | cons g rest' => rw [classifyVariant, hf] at h; simp at h

theorem classifyVariant_eq_of_length {v : Variant} (h : v.fields.length = 1) :
    classifyVariant v = .ok (v.ident, payloadOfVariant v) := by
  cases hf : v.fields with
  | nil => rw [hf] at h; cases h
  | cons f rest =>
    cases rest with
    | nil => rw [classifyVariant, hf, payloadOfVariant, hf]; rfl
    | cons g rest' => rw [hf] at h; simp at h

/-- The shapes of declarations for which the spec says classification
succeeds, stated in the spec's words (for the refinement claim C7). -/
def classificationSucceedsSpec : Data → Prop
  | .dataEnum variants => variants ≠ [] ∧ ∀ v ∈ variants, v.fields.length = 1
  | .dataStruct fields => fields ≠ []
  | .dataUnion => False

/-- C7: classification of a declaration fails exactly when some enum variant
has zero or two-or-more payload fields, the enum has zero variants, the
struct has zero fields, or the declaration is neither an enum nor a struct;
on every other declaration it succeeds and produces a `DelegateImplementer`
with no other effect. -/
theorem classify_ok_iff (input : DeriveInput) :
    (∃ implementer, classify input = .ok implementer) ↔
      classificationSucceedsSpec input.data := by
  cases hd : input.data with
  | dataEnum vs =>
    simp only [classify, hd, classificationSucceedsSpec]
    constructor
    · rintro ⟨impl, h⟩
      cases hm : mapExcept classifyVariant vs with
      | error e => rw [hm] at h; simp at h
      | ok pairs =>
        rw [hm] at h
        have hall : ∀ v ∈ vs, v.fields.length = 1 := by
          intro v hv
          exact (classifyVariant_ok_iff v).1 (mapExcept_ok_forall_ok hm v hv)
        refine ⟨?_, hall⟩
        rintro rfl
        have : pairs = ([] : List (Ident × Ty)) := by
          have := mapExcept_ok_length hm
          simpa [List.length_eq_zero] using this
        rw [this] at h
        simp at h
    · rintro ⟨hne, hall⟩
      have hm : mapExcept classifyVariant vs
          = .ok (vs.map (fun v => (v.ident, payloadOfVariant v))) :=
        mapExcept_of_forall_eq (fun v hv => classifyVariant_eq_of_length (hall v hv))
      rw [hm]
      have hmapne : (vs.map (fun v => (v.ident, payloadOfVariant v))).map Prod.snd ≠ [] := by
        simp [hne]
      have hsome : (((vs.map (fun v => (v.ident, payloadOfVariant v))).map Prod.snd).getLast?).isSome := by
        rw [List.getLast?_isSome]
        exact hmapne
      obtain ⟨ft, hft⟩ := Option.isSome_iff_exists.1 hsome
      refine ⟨DelegateImplementer.Enum
        ((vs.map (fun v => (v.ident, payloadOfVariant v))).map Prod.fst) ft
        ((vs.map (fun v => (v.ident, payloadOfVariant v))).map Prod.snd).dropLast
        input.generics, ?_⟩
      simp only [hft]
  | dataStruct fs =>
    simp only [classify, hd, classificationSucceedsSpec]
    cases fs with
    | nil => simp
    | cons f rest =>
      cases rest with
      | nil => simp
      | cons g rest' => simp
  | dataUnion => simp [classify, hd, classificationSucceedsSpec]

/-- What `classify` produces on an enum declaration: the variant identifiers
in order; as `first_type` the LAST variant's payload type (the source computes
it with `variant_types.pop()`, and `Vec::pop` removes the last element); and
the payload types of all remaining variants, in declaration order, as
`other_types`. -/
theorem classify_enum_ok (input : DeriveInput) (vs : List Variant)
    (ids : List Ident) (ft : Ty) (ot : List Ty) (g : Generics)
    (hdata : input.data = .dataEnum vs)
    (hok : classify input = .ok (.Enum ids ft ot g)) :
    ids = vs.map Variant.ident ∧ ot ++ [ft] = vs.map payloadOfVariant
      ∧ g = input.generics := by
  simp only [classify, hdata] at hok
  cases hm : mapExcept classifyVariant vs with
  | error e => rw [hm] at hok; simp at hok
  | ok pairs =>
    rw [hm] at hok
    have hpairs : pairs = vs.map (fun v => (v.ident, payloadOfVariant v)) :=
      mapExcept_ok_eq_map (fun _ _ hb => classifyVariant_ok_eq hb) hm
    subst hpairs
    cases hft : ((vs.map (fun v => (v.ident, payloadOfVariant v))).map Prod.snd).getLast? with
    | none => simp only [hft] at hok; simp at hok
    | some ft' =>
      simp only [hft, Except.ok.injEq, DelegateImplementer.Enum.injEq] at hok
      obtain ⟨hids, hft2, hot, hg⟩ := hok
      refine ⟨?_, ?_, hg.symm⟩
      · rw [← hids, List.map_map]
        rfl
      · rw [← hot, ← hft2]
        have hmem : ft' ∈ ((vs.map (fun v => (v.ident, payloadOfVariant v))).map Prod.snd).getLast? := by
          rw [Option.mem_def, hft]
        have := List.dropLast_append_getLast? ft' hmem
        rw [this, List.map_map]
        rfl

/-- The variants of the scenario-4 declaration
`enum Shape { Circle(CircleImpl), Square(SquareImpl) }`. -/
def shapeVariants : List Variant :=
  [⟨"Circle", [⟨none, "CircleImpl"⟩]⟩, ⟨"Square", [⟨none, "SquareImpl"⟩]⟩]

/-- The scenario-4 declaration with a `#[delegate(Drawable)]` attribute. -/
def shapeInput : DeriveInput :=
  { ident := "Shape", generics := ⟨[], []⟩,
    attrs := [⟨["delegate"], .list [.meta (.path ["Drawable"])]⟩],
    data := .dataEnum shapeVariants }

/-- The canonical payload type a classification result designates for an enum. -/
def canonicalTypeOf : Except String DelegateImplementer → Option Ty
  | .ok (.Enum _ first_type _ _) => some first_type
  | _ => none

/-- The other-types list a classification result keeps for an enum. -/
def otherTypesOf : Except String DelegateImplementer → Option (List Ty)
  | .ok (.Enum _ _ other_types _) => some other_types
  | _ => none

/-- C1 counterexample: on `enum Shape { Circle(CircleImpl), Square(SquareImpl) }`
the classifier designates `SquareImpl` — the payload type of the LAST declared
variant — as canonical and keeps `CircleImpl` as the other type, contradicting
the claim that the FIRST declared variant's payload type is canonical.  The
cause: `variant_types.pop()` removes the last element of the vector. -/
theorem canonical_not_first_counterexample :
    canonicalTypeOf (classify shapeInput) = some "SquareImpl"
    ∧ ¬ canonicalTypeOf (classify shapeInput) = some "CircleImpl"
    ∧ otherTypesOf (classify shapeInput) = some ["CircleImpl"] := by
  refine ⟨rfl, ?_, rfl⟩
  intro h
  simp only [canonicalTypeOf] at h
  exact absurd h (by decide)

/-- C1 (amended): for every enum declaration that classifies successfully, the
payload type designated canonical is that of the LAST declared variant, and
the payload types of the remaining variants (all but the last) are kept as
the other-types list in original declaration order: other-types extended by
the canonical type is exactly the list of payload types in declaration
order. -/
theorem enum_canonical_is_last (input : DeriveInput) (vs : List Variant)
    (ids : List Ident) (ft : Ty) (ot : List Ty) (g : Generics)
    (hdata : input.data = .dataEnum vs)
    (hok : classify input = .ok (.Enum ids ft ot g)) :
    ids = vs.map Variant.ident ∧ ot ++ [ft] = vs.map payloadOfVariant :=
  ⟨(classify_enum_ok input vs ids ft ot g hdata hok).1,
   (classify_enum_ok input vs ids ft ot g hdata hok).2.1⟩

/-- Witness for the amended C1 at the scenario-4 enum: the canonical type is
`SquareImpl`, the last variant's payload, and `["CircleImpl"] ++ ["SquareImpl"]`
is the payload-type list in declaration order. -/
theorem enum_canonical_is_last_witness :
    ["Circle", "Square"] = shapeVariants.map Variant.ident
    ∧ ["CircleImpl"] ++ ["SquareImpl"] = shapeVariants.map payloadOfVariant :=
  enum_canonical_is_last shapeInput shapeVariants ["Circle", "Square"]
    "SquareImpl" ["CircleImpl"] ⟨[], []⟩ rfl rfl

/-! ### Characterization of `emitOne` on each implementer shape -/

theorem emitOne_enum_ok {implementer_ident : Ident} {ids : List Ident} {ft : Ty}
    {ot : List Ty} {g : Generics} {args : DelegateArgs} {blk : ImplBlock}
    (h : emitOne implementer_ident (.Enum ids ft ot g) args = .ok blk) :
    ∃ ti, args.trait_path_full.getLast? = some ti ∧ args.target = none ∧
      blk = .enumBlock ("ambassador_module_" ++ ti) (macro_name ti)
        args.trait_path_full implementer_ident g.params
        (g.wherePredicates ++ [WherePred.traitImpl ft args.trait_path_full]
          ++ args.where_clauses.flatten
          ++ ot.map (fun arg => WherePred.matchImpl arg (match_name ti) ft))
        ft ot ids := by
  cases hti : args.trait_path_full.getLast? with
  | none =>
    simp only [emitOne, hti] at h
    exact Except.noConfusion h
  | some ti =>
    simp only [emitOne, hti] at h
    cases htgt : args.target with
    | some m => rw [htgt] at h; simp at h
    | none =>
      rw [htgt] at h
      simp only [Option.isSome_none, Bool.false_eq_true, if_false,
        generics_for_impl, genericsOf, Except.ok.injEq] at h
      exact ⟨ti, rfl, rfl, by rw [← h, List.append_assoc, List.append_assoc]⟩

theorem emitOne_single_ok {implementer_ident : Ident} {fi : Member} {fty : Ty}
    {g : Generics} {args : DelegateArgs} {blk : ImplBlock}
    (h : emitOne implementer_ident (.SingleFieldStruct fi fty g) args = .ok blk) :
    ∃ ti, args.trait_path_full.getLast? = some ti ∧ args.target = none ∧
      blk = .structBlock (macro_name ti) ti implementer_ident g.params
        (g.wherePredicates ++ [WherePred.traitImpl fty args.trait_path_full]
          ++ args.where_clauses.flatten)
        fty fi := by
  cases hti : args.trait_path_full.getLast? with
  | none =>
    simp only [emitOne, hti] at h
    exact Except.noConfusion h
  | some ti =>
    simp only [emitOne, hti] at h
    cases htgt : args.target with
    | some m => rw [htgt] at h; simp at h
    | none =>
      rw [htgt] at h
      simp only [Option.isSome_none, Bool.false_eq_true, if_false,
        generics_for_impl, genericsOf, Except.ok.injEq] at h
      exact ⟨ti, rfl, rfl, by rw [← h, List.append_assoc]⟩

theorem emitOne_multi_ok {implementer_ident : Ident} {fields : List (Member × Ty)}
    {g : Generics} {args : DelegateArgs} {blk : ImplBlock}
    (h : emitOne implementer_ident (.MultiFieldStruct fields g) args = .ok blk) :
    ∃ ti fld, args.trait_path_full.getLast? = some ti
      ∧ get_field args fields = .ok fld ∧
      blk = .structBlock (macro_name ti) ti implementer_ident g.params
        (g.wherePredicates ++ [WherePred.traitImpl fld.2 args.trait_path_full]
          ++ args.where_clauses.flatten)
        fld.2 fld.1 := by
  cases hti : args.trait_path_full.getLast? with
  | none =>
    simp only [emitOne, hti] at h
    exact Except.noConfusion h
  | some ti =>
    simp only [emitOne, hti] at h
    cases hfld : get_field args fields with
    | error e => rw [hfld] at h; simp at h
    | ok fld =>
      rw [hfld] at h
      simp only [generics_for_impl, genericsOf, Except.ok.injEq] at h
      exact ⟨ti, fld, rfl, rfl, by rw [← h, List.append_assoc]⟩

/-! ### Concrete pipeline values used by witnesses and counterexamples -/

/-- The directive `#[delegate(Drawable)]` as parsed arguments. -/
def drawableArgs : DelegateArgs := ⟨["Drawable"], none, []⟩

/-- The block `delegate_macro` emits for `#[delegate(Drawable)]` on the
scenario-4 enum. -/
def shapeBlock : ImplBlock :=
  .enumBlock "ambassador_module_Drawable" "ambassador_impl_Drawable" ["Drawable"]
    "Shape" []
    [.traitImpl "SquareImpl" ["Drawable"],
     .matchImpl "CircleImpl" "ambassador_match_Drawable" "SquareImpl"]
    "SquareImpl" ["CircleImpl"] ["Circle", "Square"]

/-- C10: for every enum declaration that classifies successfully, the number
of variant identifiers equals the number of other-types plus one, and the
emitter passes the canonical type, the other types and the variant
identifiers — exactly as classified, as aligned lists — to the `body_enum`
template. -/
theorem enum_alignment (input : DeriveInput) (vs : List Variant)
    (ids : List Ident) (ft : Ty) (ot : List Ty) (g : Generics)
    (implementer_ident : Ident) (args : DelegateArgs) (blk : ImplBlock)
    (hdata : input.data = .dataEnum vs)
    (hclass : classify input = .ok (.Enum ids ft ot g))
    (hemit : emitOne implementer_ident (.Enum ids ft ot g) args = .ok blk) :
    ids.length = ot.length + 1 ∧ enumBodyOf blk = some (ft, ot, ids) := by
  obtain ⟨hids, hot, -⟩ := classify_enum_ok input vs ids ft ot g hdata hclass
  constructor
  · have h1 : ids.length = vs.length := by rw [hids, List.length_map]
    have h2 : ot.length + 1 = vs.length := by
      have := congrArg List.length hot
      simpa using this
    omega
  · obtain ⟨ti, -, -, hblk⟩ := emitOne_enum_ok hemit
    rw [hblk]
    rfl

/-- Witness for C10 on the scenario-4 enum processed end to end. -/
theorem enum_alignment_witness :
    (["Circle", "Square"] : List Ident).length = (["CircleImpl"] : List Ty).length + 1
    ∧ enumBodyOf shapeBlock = some ("SquareImpl", ["CircleImpl"], ["Circle", "Square"]) :=
  enum_alignment shapeInput shapeVariants ["Circle", "Square"] "SquareImpl"
    ["CircleImpl"] ⟨[], []⟩ "Shape" drawableArgs shapeBlock rfl rfl rfl

/-- Whether an implementer is the enum shape. -/
def isEnumImplementer : DelegateImplementer → Bool
  | .Enum _ _ _ _ => true
  | .SingleFieldStruct _ _ _ => false
  | .MultiFieldStruct _ _ => false

/-- C9: for struct implementers (single- or multi-field) the emitted block
names the delegated interface by only the final segment of the directive's
interface path, while for enum implementers the impl header carries the full
interface path. -/
theorem header_trait_resolution (implementer_ident : Ident)
    (implementer : DelegateImplementer) (args : DelegateArgs) (blk : ImplBlock)
    (h : emitOne implementer_ident implementer args = .ok blk) :
    (isEnumImplementer implementer = true → headerTraitOf blk = args.trait_path_full)
    ∧ (isEnumImplementer implementer = false →
        ∃ ti, args.trait_path_full.getLast? = some ti ∧ headerTraitOf blk = [ti]) := by
  cases implementer with
  | Enum ids ft ot g =>
    obtain ⟨ti, hti, htgt, hblk⟩ := emitOne_enum_ok h
    exact ⟨fun _ => by rw [hblk]; rfl, fun hfalse => by simp [isEnumImplementer] at hfalse⟩
  | SingleFieldStruct fi fty g =>
    obtain ⟨ti, hti, htgt, hblk⟩ := emitOne_single_ok h
    exact ⟨fun htrue => by simp [isEnumImplementer] at htrue,
      fun _ => ⟨ti, hti, by rw [hblk]; rfl⟩⟩
  | MultiFieldStruct fields g =>
    obtain ⟨ti, fld, hti, hget, hblk⟩ := emitOne_multi_ok h
    exact ⟨fun htrue => by simp [isEnumImplementer] at htrue,
      fun _ => ⟨ti, hti, by rw [hblk]; rfl⟩⟩

/-- The single-field struct `struct Wrapper(Inner)` as classified. -/
def wrapperSingle : DelegateImplementer := .SingleFieldStruct (.Unnamed 0) "Inner" ⟨[], []⟩

/-- The directive `#[delegate(mymod::Greet)]`: a qualified interface path. -/
def qualifiedGreetArgs : DelegateArgs := ⟨["mymod", "Greet"], none, []⟩

/-- The block emitted for `#[delegate(mymod::Greet)]` on `struct Wrapper(Inner)`:
its impl header names only `Greet`, the last path segment. -/
def wrapperGreetBlock : ImplBlock :=
  .structBlock "ambassador_impl_Greet" "Greet" "Wrapper" []
    [.traitImpl "Inner" ["mymod", "Greet"]] "Inner" (.Unnamed 0)

/-- Witness for C9: a struct delegation of the qualified path `mymod::Greet`
puts only `Greet` in the impl header. -/
theorem header_trait_resolution_witness :
    (isEnumImplementer wrapperSingle = true →
      headerTraitOf wrapperGreetBlock = qualifiedGreetArgs.trait_path_full)
    ∧ (isEnumImplementer wrapperSingle = false →
        ∃ ti, qualifiedGreetArgs.trait_path_full.getLast? = some ti
          ∧ headerTraitOf wrapperGreetBlock = [ti]) :=
  header_trait_resolution "Wrapper" wrapperSingle qualifiedGreetArgs wrapperGreetBlock rfl

/-- C6: for every single-field struct or enum implementer, a directive that
supplies a `target` selector fails generation, with the respective panic
message. -/
theorem target_forbidden (implementer_ident : Ident)
    (implementer : DelegateImplementer) (args : DelegateArgs) (m : Member)
    (ti : Ident) (hti : args.trait_path_full.getLast? = some ti)
    (htgt : args.target = some m) :
    (∀ ids ft ot g, implementer = .Enum ids ft ot g →
      emitOne implementer_ident implementer args
        = .error "\"target\" value on #[delegate] attribute can not be specified for enums")
    ∧ (∀ fi fty g, implementer = .SingleFieldStruct fi fty g →
      emitOne implementer_ident implementer args
        = .error "\"target\" value on #[delegate] attribute can not be specified for structs with a single field") := by
  constructor
  · rintro ids ft ot g rfl
    simp [emitOne, hti, htgt]
  · rintro fi fty g rfl
    simp [emitOne, hti, htgt]

/-- Witness for C6: a `target` on the scenario-4 enum aborts generation. -/
theorem target_forbidden_witness :
    emitOne "Shape" (.Enum ["Circle", "Square"] "SquareImpl" ["CircleImpl"] ⟨[], []⟩)
        ⟨["Drawable"], some (.Named "x"), []⟩
      = .error "\"target\" value on #[delegate] attribute can not be specified for enums" :=
  (target_forbidden "Shape"
    (.Enum ["Circle", "Square"] "SquareImpl" ["CircleImpl"] ⟨[], []⟩)
    ⟨["Drawable"], some (.Named "x"), []⟩ (.Named "x") "Drawable" rfl rfl).1
    ["Circle", "Square"] "SquareImpl" ["CircleImpl"] ⟨[], []⟩ rfl

/-! ### C2: constraint merge order -/

/-- The where-clause of an emission result (empty on failure). -/
def whereOfResult : Except String ImplBlock → List WherePred
  | .ok blk => whereClauseOf blk
  | .error _ => []

/-- Generics `<T>` with the declared constraint `T: Clone`. -/
def clonedGenerics : Generics := ⟨["T"], [.raw "T: Clone"]⟩

/-- The scenario-4 enum as classified, with generics `<T: Clone>`. -/
def enumWhereImplementer : DelegateImplementer :=
  .Enum ["Circle", "Square"] "SquareImpl" ["CircleImpl"] clonedGenerics

/-- The directive `#[delegate(Drawable, where = "T: Debug")]`. -/
def drawableWhereArgs : DelegateArgs := ⟨["Drawable"], none, [[.raw "T: Debug"]]⟩

/-- C2 counterexample: for an enum directive carrying a supplementary `where`
clause, the merged constraint set is NOT own-constraints, then the synthesized
matching-relation constraints, then the `where` constraints: the generator
emits own-constraints, then a `canonical-type : interface` bound, then the
`where` constraints, and only THEN the matching-relation constraints — the
claimed sequence is not even a subsequence of the emitted one. -/
theorem merge_order_counterexample :
    whereOfResult (emitOne "Shape" enumWhereImplementer drawableWhereArgs)
      = [WherePred.raw "T: Clone", WherePred.traitImpl "SquareImpl" ["Drawable"],
         WherePred.raw "T: Debug",
         WherePred.matchImpl "CircleImpl" "ambassador_match_Drawable" "SquareImpl"]
    ∧ ¬ List.Sublist
        [WherePred.raw "T: Clone",
         WherePred.matchImpl "CircleImpl" "ambassador_match_Drawable" "SquareImpl",
         WherePred.raw "T: Debug"]
        (whereOfResult (emitOne "Shape" enumWhereImplementer drawableWhereArgs)) := by
  constructor
  · rfl
  · decide

/-- The type the delegation constraint is synthesized for: the selected
field's type for structs, the designated canonical type for enums. -/
def delegationTargetTy (implementer : DelegateImplementer) (args : DelegateArgs) :
    Except String Ty :=
  match implementer with
  | .Enum _ first_type _ _ => .ok first_type
  | .SingleFieldStruct _ field_type _ => .ok field_type
  | .MultiFieldStruct fields _ =>
    match get_field args fields with
    | .error e => .error e
    | .ok field => .ok field.2

/-- The matching-relation constraints synthesized for an enum implementer
(none for structs). -/
def synthesizedMatching (implementer : DelegateImplementer) (trait_ident : Ident) :
    List WherePred :=
  match implementer with
  | .Enum _ first_type other_types _ =>
    other_types.map (fun arg => WherePred.matchImpl arg (match_name trait_ident) first_type)
  | .SingleFieldStruct _ _ _ => []
  | .MultiFieldStruct _ _ => []

/-- C2 (amended): for every directive that generates successfully, the merged
constraint set contains, in this order: the declaration's own constraints,
then a synthesized `delegation-target type implements interface` constraint
(the selected field's type for structs, the designated canonical type for
enums), then the supplementary `where` constraints in the order the directive
arguments were given, and finally — for enums only — the matching-relation
constraints, one per other-type in declaration order. -/
theorem merge_order_amended (implementer_ident : Ident)
    (implementer : DelegateImplementer) (args : DelegateArgs) (blk : ImplBlock)
    (h : emitOne implementer_ident implementer args = .ok blk) :
    ∃ ti ty, args.trait_path_full.getLast? = some ti
      ∧ delegationTargetTy implementer args = .ok ty
      ∧ whereClauseOf blk
        = (genericsOf implementer).wherePredicates
          ++ [WherePred.traitImpl ty args.trait_path_full]
          ++ args.where_clauses.flatten
          ++ synthesizedMatching implementer ti := by
  cases implementer with
  | Enum ids ft ot g =>
    obtain ⟨ti, hti, htgt, hblk⟩ := emitOne_enum_ok h
    exact ⟨ti, ft, hti, rfl, by rw [hblk]; rfl⟩
  | SingleFieldStruct fi fty g =>
    obtain ⟨ti, hti, htgt, hblk⟩ := emitOne_single_ok h
    refine ⟨ti, fty, hti, rfl, ?_⟩
    rw [hblk]
    simp [whereClauseOf, synthesizedMatching, genericsOf]
  | MultiFieldStruct fields g =>
    obtain ⟨ti, fld, hti, hget, hblk⟩ := emitOne_multi_ok h
    refine ⟨ti, fld.2, hti, ?_, ?_⟩
    · simp [delegationTargetTy, hget]
    · rw [hblk]
      simp [whereClauseOf, synthesizedMatching, genericsOf]

/-- The single-field struct `struct S<T: Clone> { inner: T }` as classified
(spec scenario 5). -/
def sImplementer : DelegateImplementer := .SingleFieldStruct (.Named "inner") "T" clonedGenerics

/-- The directive `#[delegate(Greet, where = "T: Debug")]` (spec scenario 5). -/
def sArgs : DelegateArgs := ⟨["Greet"], none, [[.raw "T: Debug"]]⟩

/-- The block emitted for scenario 5: merged constraints exactly
`T: Clone, T: Greet, T: Debug` in that order. -/
def sBlock : ImplBlock :=
  .structBlock "ambassador_impl_Greet" "Greet" "S" ["T"]
    [.raw "T: Clone", .traitImpl "T" ["Greet"], .raw "T: Debug"] "T" (.Named "inner")

/-- Witness for the amended C2 at spec scenario 5. -/
theorem merge_order_amended_witness :
    ∃ ti ty, sArgs.trait_path_full.getLast? = some ti
      ∧ delegationTargetTy sImplementer sArgs = .ok ty
      ∧ whereClauseOf sBlock
        = (genericsOf sImplementer).wherePredicates
          ++ [WherePred.traitImpl ty sArgs.trait_path_full]
          ++ sArgs.where_clauses.flatten
          ++ synthesizedMatching sImplementer ti :=
  merge_order_amended "S" sImplementer sArgs sBlock rfl

/-! ### C3: matching constraints and dispatch coverage -/

/-- The where-clause of the first emitted block of a generation result. -/
def whereOfFirst : Except String (List ImplBlock) → List WherePred
  | .ok (blk :: _) => whereClauseOf blk
  | .ok [] => []
  | .error _ => []

/-- C3 counterexample: delegating `Drawable` on
`enum Shape { Circle(CircleImpl), Square(SquareImpl) }` emits NO constraint
requiring the non-first payload type `SquareImpl` to satisfy the matching
relation parameterized by the first variant's payload type `CircleImpl`
(which the claim, whose canonical type is the first variant's, requires
exactly once); instead it emits one constraint in the opposite direction,
because the classifier designates the LAST variant's payload as canonical. -/
theorem match_direction_counterexample :
    (whereOfFirst ( delegate_macro shapeInput)).count
        (WherePred.matchImpl "SquareImpl" (match_name "Drawable") "CircleImpl") = 0
    ∧ (whereOfFirst ( delegate_macro shapeInput)).count
        (WherePred.matchImpl "CircleImpl" (match_name "Drawable") "SquareImpl") = 1 := by
  decide

/-- C3 (amended): for every enum delegation that generates successfully, the
emitted constraint set ends with exactly one matching-relation constraint per
other-type occurrence — each non-canonical payload type, in declaration
order, constrained to satisfy the matching relation parameterized by the
DESIGNATED canonical type (the last declared variant's payload) — and the
emitted dispatch covers every declared variant exactly once. -/
theorem enum_dispatch_and_matching (input : DeriveInput) (vs : List Variant)
    (ids : List Ident) (ft : Ty) (ot : List Ty) (g : Generics)
    (implementer_ident : Ident) (args : DelegateArgs) (blk : ImplBlock) (ti : Ident)
    (hdata : input.data = .dataEnum vs)
    (hnodup : (vs.map Variant.ident).Nodup)
    (hclass : classify input = .ok (.Enum ids ft ot g))
    (hti : args.trait_path_full.getLast? = some ti)
    (hemit : emitOne implementer_ident (.Enum ids ft ot g) args = .ok blk) :
    (∃ pre, whereClauseOf blk
        = pre ++ ot.map (fun t => WherePred.matchImpl t (match_name ti) ft))
    ∧ dispatchIdentsOf blk = vs.map Variant.ident
    ∧ ∀ v ∈ vs, (dispatchIdentsOf blk).count v.ident = 1 := by
  obtain ⟨hids, hot, -⟩ := classify_enum_ok input vs ids ft ot g hdata hclass
  obtain ⟨ti', hti', htgt, hblk⟩ := emitOne_enum_ok hemit
  rw [hti] at hti'
  obtain rfl : ti' = ti := by injection hti' with h; exact h.symm
  have hdisp : dispatchIdentsOf blk = vs.map Variant.ident := by
    rw [hblk, dispatchIdentsOf, hids]
  refine ⟨⟨g.wherePredicates ++ [WherePred.traitImpl ft args.trait_path_full]
      ++ args.where_clauses.flatten, ?_⟩, hdisp, ?_⟩
  · rw [hblk]
    simp [whereClauseOf]
  · intro v hv
    rw [hdisp]
    exact List.count_eq_one_of_mem hnodup (List.mem_map_of_mem Variant.ident hv)

/-- Witness for the amended C3 at the scenario-4 enum. -/
theorem enum_dispatch_and_matching_witness :
    (∃ pre, whereClauseOf shapeBlock
        = pre ++ (["CircleImpl"] : List Ty).map
            (fun t => WherePred.matchImpl t (match_name "Drawable") "SquareImpl"))
    ∧ dispatchIdentsOf shapeBlock = shapeVariants.map Variant.ident
    ∧ ∀ v ∈ shapeVariants, (dispatchIdentsOf shapeBlock).count v.ident = 1 :=
  enum_dispatch_and_matching shapeInput shapeVariants ["Circle", "Square"]
    "SquareImpl" ["CircleImpl"] ⟨[], []⟩ "Shape" drawableArgs shapeBlock "Drawable"
    rfl (by decide) rfl rfl rfl

/-! ### C4: unrecognized name/value arguments -/

/-- The directive `#[delegate(Greet, foo = "bar")]`: its second argument is a
name/value pair whose name is neither `target` nor `where`. -/
def unknownNameMeta : Meta :=
  .list [.meta (.path ["Greet"]), .meta (.nameValue ["foo"] (.str "bar"))]

/-- C4 counterexample: directive parsing does NOT fail on a name/value pair
with an unrecognized name.  The source's argument loop tests only `target`
and `where` and has no else branch, so `from_meta` silently skips the pair
and parsing succeeds as if it were absent. -/
theorem unknown_name_counterexample :
    from_meta unknownNameMeta = .ok ⟨["Greet"], none, []⟩ := rfl

/-- C4 (amended): a directive argument after the first that is a name/value
pair whose name is neither `target` nor `where` is silently ignored: parsing
the argument tail with the pair present yields exactly the same result as
parsing it with the pair removed. -/
theorem unknown_name_ignored (items₁ items₂ : List Meta) (name : Path) (lit : Lit)
    (t : Option Member) (w : List (List WherePred))
    (hname1 : name ≠ ["target"]) (hname2 : name ≠ ["where"]) :
    parseTail (items₁ ++ .nameValue name lit :: items₂) t w
      = parseTail (items₁ ++ items₂) t w := by
  induction items₁ generalizing t w with
  | nil =>
    cases lit with
    | str s =>
      simp only [List.nil_append, parseTail]
      rw [if_neg hname1, if_neg hname2]
    | other =>
      simp only [List.nil_append, parseTail]
      rw [if_neg hname1, if_neg hname2]
  | cons m rest ih =>
    cases m with
    | path p => rfl
    | list l => rfl
    | nameValue n l =>
      cases l with
      | str s =>
        simp only [List.cons_append, parseTail]
        by_cases h1 : n = ["target"]
        · rw [if_pos h1, if_pos h1]
          cases parseMember s with
          | none => rfl
          | some tv =>
            cases t with
            | some t0 => rfl
            | none => exact ih (some tv) w
        · rw [if_neg h1, if_neg h1]
          by_cases h2 : n = ["where"]
          · rw [if_pos h2, if_pos h2]
            cases parsePredicates s with
            | none => rfl
            | some preds => exact ih t (w ++ [preds])
          · rw [if_neg h2, if_neg h2]
            exact ih t w
      | other =>
        simp only [List.cons_append, parseTail]
        by_cases h1 : n = ["target"]
        · rw [if_pos h1, if_pos h1]
        · rw [if_neg h1, if_neg h1]
          by_cases h2 : n = ["where"]
          · rw [if_pos h2, if_pos h2]
          · rw [if_neg h2, if_neg h2]
            exact ih t w

/-- Witness for the amended C4: `foo = "bar"` in argument position is a
no-op for the parser. -/
theorem unknown_name_ignored_witness :
    parseTail ([] ++ Meta.nameValue ["foo"] (Lit.str "bar") :: []) none []
      = parseTail ([] ++ []) none [] :=
  unknown_name_ignored [] [] ["foo"] (.str "bar") none [] (by decide) (by decide)

/-! ### C5: target resolution on multi-field structs -/

/-- C5: for a multi-field struct implementer whose field selectors are
pairwise distinct (which Rust's declaration syntax guarantees), target
resolution fails when `target` is absent; fails — reporting the offending
selector in human-readable form (field name, or positional index) — when
`target` matches no field selector; and otherwise returns the unique matched
(selector, type) pair, to which alone the emitted block forwards. -/
theorem get_field_spec (args : DelegateArgs) (fields : List (Member × Ty))
    (hnodup : (fields.map Prod.fst).Nodup) :
    (args.target = none →
      get_field args fields
        = .error "\"target\" value on #[delegate] attribute has to be specified for structs with multiple fields")
    ∧ (∀ t, args.target = some t → (∀ p ∈ fields, p.1 ≠ t) →
        get_field args fields
          = .error ("Unknown field \"" ++ prettyTarget t
              ++ "\" specified as \"target\" value in #[delegate] attribute"))
    ∧ (∀ t ty, args.target = some t → (t, ty) ∈ fields →
        get_field args fields = .ok (t, ty)
        ∧ (∀ ty₂, (t, ty₂) ∈ fields → ty₂ = ty)
        ∧ (∀ implementer_ident g blk,
            emitOne implementer_ident (.MultiFieldStruct fields g) args = .ok blk →
            structFieldOf blk = some (t, ty))) := by
  refine ⟨?_, ?_, ?_⟩
  · intro h
    simp [get_field, h]
  · intro t h hmiss
    have hfind : fields.find? (fun n => decide (n.1 = t)) = none := by
      rw [List.find?_eq_none]
      intro p hp
      simpa using hmiss p hp
    simp [get_field, h, hfind]
  · intro t ty h hmem
    have huniq : ∀ q ∈ fields, q.1 = t → q = (t, ty) := by
      intro q hq hqt
      exact List.inj_on_of_nodup_map hnodup hq hmem (by simpa using hqt)
    have hsome : (fields.find? (fun n => decide (n.1 = t))).isSome := by
      rw [List.find?_isSome]
      exact ⟨(t, ty), hmem, by simp⟩
    obtain ⟨q, hq⟩ := Option.isSome_iff_exists.1 hsome
    have hqmem : q ∈ fields := List.mem_of_find?_eq_some hq
    have hqt : q.1 = t := by simpa using List.find?_some hq
    have hqeq : q = (t, ty) := huniq q hqmem hqt
    subst hqeq
    have hget : get_field args fields = .ok (t, ty) := by
      simp [get_field, h, hq]
    refine ⟨hget, ?_, ?_⟩
    · intro ty₂ hmem₂
      exact congrArg Prod.snd (huniq (t, ty₂) hmem₂ rfl)
    · intro implementer_ident g blk hemit
      obtain ⟨ti, fld, hti, hgf, hblk⟩ := emitOne_multi_ok hemit
      rw [hget] at hgf
      obtain rfl : fld = (t, ty) := by injection hgf with e; exact e.symm
      rw [hblk]
      rfl

/-- Witness for C5: on `struct Pair { a: A, b: B }` with `target = "b"`, the
resolver returns field `b` of type `B` (spec scenario 3). -/
theorem get_field_spec_witness :
    get_field ⟨["Greet"], some (.Named "b"), []⟩ [(.Named "a", "A"), (.Named "b", "B")]
      = .ok (.Named "b", "B") := by
  have h := get_field_spec ⟨["Greet"], some (.Named "b"), []⟩
    [(.Named "a", "A"), (.Named "b", "B")] (by decide)
  exact (h.2.2 (.Named "b") "B" rfl (by decide)).1

/-! ### C8: independence of directives -/

/-- C8: when generation succeeds on a declaration, the output has exactly one
implementation block per `#[delegate]` attribute, every directive is
processed against the same classified implementer, and the i-th block is a
function of that implementer and the i-th directive alone — so no block
depends on the presence, content, or processing order of the others. -/
theorem directives_independent (input : DeriveInput) (blocks : List ImplBlock)
    (h : delegate_macro input = .ok blocks) :
    ∃ implementer, classify input = .ok implementer
      ∧ blocks.length = (delegate_attributes input).length
      ∧ ∀ (i : Nat) (hi : i < (delegate_attributes input).length)
          (hb : i < blocks.length),
          ∃ args, from_meta ((delegate_attributes input).get ⟨i, hi⟩).meta = .ok args
            ∧ emitOne input.ident implementer args = .ok (blocks.get ⟨i, hb⟩) := by
  cases hc : classify input with
  | error e =>
    simp only [ delegate_macro, hc] at h
    exact Except.noConfusion h
  | ok implementer =>
    simp only [ delegate_macro, hc] at h
    by_cases hemp : (delegate_attributes input).isEmpty = true
    · rw [if_pos hemp] at h
      exact Except.noConfusion h
    · rw [if_neg hemp] at h
      refine ⟨implementer, rfl, mapExcept_ok_length h, ?_⟩
      intro i hi hb
      have hpt := mapExcept_ok_get h i hi hb
      cases hfm : from_meta ((delegate_attributes input).get ⟨i, hi⟩).meta with
      | error e =>
        simp only [hfm] at hpt
        exact Except.noConfusion hpt
      | ok args =>
        simp only [hfm] at hpt
        exact ⟨args, rfl, hpt⟩

/-- `struct Wrapper(Inner)` carrying `#[delegate(Greet)]` and
`#[delegate(Farewell)]` (spec scenario 6). -/
def wrapperInput : DeriveInput :=
  { ident := "Wrapper", generics := ⟨[], []⟩,
    attrs := [⟨["delegate"], .list [.meta (.path ["Greet"])]⟩,
              ⟨["delegate"], .list [.meta (.path ["Farewell"])]⟩],
    data := .dataStruct [⟨none, "Inner"⟩] }

/-- The two independent blocks generated for `wrapperInput`. -/
def wrapperBlocks : List ImplBlock :=
  [.structBlock "ambassador_impl_Greet" "Greet" "Wrapper" []
      [.traitImpl "Inner" ["Greet"]] "Inner" (.Unnamed 0),
   .structBlock "ambassador_impl_Farewell" "Farewell" "Wrapper" []
      [.traitImpl "Inner" ["Farewell"]] "Inner" (.Unnamed 0)]

/-- Witness for C8: two directives on the same declaration generate exactly
two blocks, one per directive. -/
theorem directives_independent_witness :
    ( delegate_macro wrapperInput = .ok wrapperBlocks)
    ∧ ∃ implementer, classify wrapperInput = .ok implementer
        ∧ wrapperBlocks.length = (delegate_attributes wrapperInput).length :=
  ⟨rfl, (directives_independent wrapperInput wrapperBlocks rfl).imp
    (fun _ hspec => ⟨hspec.1, hspec.2.1⟩)⟩

end Ambassador
